import Mathlib

/-!
Shallow embedding of the signed-URL resolution subsystem of `src/storage.ts`
(functions `parseR2Url`, `getSignedDownloadUrl`, `getAuthenticatedUrl`,
`getAuthenticatedUrls`, `getSignedDownloadUrlForAttachment`) together with the
cache-tier state they manipulate (the process-local `signedUrlCache` map and
the Upstash Redis distributed tier from `src/redis.ts`).

External effects are modelled explicitly:
- time: a single instant `Env.now` stands for the `Date.now()` readings taken
  during one call (the source reads the clock several times inside one call;
  the embedding treats one call as instantaneous);
- the signer (`getSignedUrl` of the AWS presigner) is an oracle
  `Env.signer : String -> Option String`, `none` modelling a rejected promise;
- Redis transport outcomes are oracle flags on `Env`: `redisGetFails`
  (a `redis.get` rejection), `redisSetFails` (rejection of the awaited
  `redis.set`), `mgetMode` (the `Promise.race` between `redis.mget` and the
  2000 ms `setTimeout`: the read resolves in time, rejects in time, or the
  deadline elapses first), and `pipelineFails` (rejection of the
  fire-and-forget `pipeline.exec()`).
Every cache read/write and signer call is logged in an operation trace so
that frame and call-count properties can be stated.
-/

/-- Model of a JS promise outcome: fulfilled with a value, or rejected.
The rejection reason is irrelevant to every claim, so it is not carried. -/
inductive Outcome (α : Type) where
  | ok (val : α)
  | err
deriving DecidableEq, Repr

/-- A cached signed-URL entry, `interface SignedUrlCache { url; expiresAt }`
of `storage.ts` (also the value shape stored in Redis). Times are in ms. -/
structure Entry where
  url : String
  expiresAt : Int
deriving DecidableEq, Repr

/-- `SIGNED_URL_CACHE_DURATION = 50 * 60 * 1000` (ms) from `storage.ts`. -/
def SIGNED_URL_CACHE_DURATION : Int := 50 * 60 * 1000

/-- `SIGNED_URL_EXPIRY = 3600` (seconds) from `storage.ts`. -/
def SIGNED_URL_EXPIRY : Int := 3600

/-- `SAFETY_BUFFER_MS = 5 * 60 * 1000` (ms) from `storage.ts`. -/
def SAFETY_BUFFER_MS : Int := 5 * 60 * 1000

/-- The `setTimeout(..., 2000)` deadline raced against `redis.mget` in
`getAuthenticatedUrls`. -/
def REDIS_MGET_TIMEOUT_MS : Int := 2000

/- ## Locator parsing (`parseR2Url`) -/

/-- Character-level test that `p` begins the list `cs`. -/
def beginsWith : List Char → List Char → Bool
  | [], _ => true
  | _ :: _, [] => false
  | p :: ps, c :: cs => p = c && beginsWith ps cs

/-- JS `str.split('/')` on a character list: always at least one group,
empty groups preserved. -/
def splitOnSlash : List Char → List (List Char)
  | [] => [[]]
  | c :: cs =>
    if c = '/' then [] :: splitOnSlash cs
    else
      match splitOnSlash cs with
      | g :: gs => (c :: g) :: gs
      | [] => [[c]]

/-- JS `parts.join('/')`. -/
def joinSlash : List (List Char) → List Char
  | [] => []
  | [g] => g
  | g :: gs => g ++ '/' :: joinSlash gs

/-- The characters of the canonical scheme marker `r2://`. -/
def r2Scheme : List Char := ['r', '2', ':', '/', '/']

/-- The characters of the legacy marker `/file/`. -/
def fileMarker : List Char := ['/', 'f', 'i', 'l', 'e', '/']

/-- One attempt of the legacy regex `\/file\/[^\/]+\/(.+)$` at a fixed start:
given the characters after `/file/`, the greedy `[^\/]+` consumes the maximal
run of non-slash characters, which must be nonempty, then a literal `/`, then
the capture `(.+)` takes the nonempty remainder up to the end of the string. -/
def legacyCapture (rest : List Char) : Option (List Char) :=
  let seg := rest.takeWhile (fun c => ¬ (c = '/'))
  let rem := rest.dropWhile (fun c => ¬ (c = '/'))
  match seg, rem with
  | [], _ => none
  | _ :: _, c :: tail => if c = '/' ∧ tail ≠ [] then some tail else none
  | _ :: _, [] => none

/-- JS `url.match(/\/file\/[^\/]+\/(.+)$/)`: try the pattern at each start
position from the left; at a position where `/file/` occurs but the rest of
the pattern cannot complete, the engine moves to the next start position. -/
def legacyScan : List Char → Option (List Char)
  | [] => none
  | c :: cs =>
    if beginsWith fileMarker (c :: cs) then
      match legacyCapture ((c :: cs).drop 6) with
      | some tail => some tail
      | none => legacyScan cs
    else legacyScan cs

/-- `parseR2Url` of `storage.ts` on a character list. When the string starts
with `r2://`, the JS `url.replace('r2://', '')` removes exactly that leading
occurrence (the first occurrence is the prefix), then the bucket segment is
shifted off and the remaining segments rejoined. Otherwise the legacy-URL
regex is tried; no match gives `null` (here `none`). -/
def parseR2UrlChars (cs : List Char) : Option (List Char) :=
  if beginsWith r2Scheme cs then
    let parts := splitOnSlash (cs.drop 5)
    some (joinSlash (parts.drop 1))
  else legacyScan cs

/-- `parseR2Url : string -> string | null` of `storage.ts`. -/
def parseR2Url (url : String) : Option String :=
  (parseR2UrlChars url.toList).map (fun cs => String.mk cs)

/-- The JS truthiness test applied to the parse result at every call site
(`if (!fileKey)` and `if (!item.key)`): both `null` and the empty string are
falsy, so a parsed-but-empty key is treated exactly like no key. -/
def truthyKey : Option String → Option String
  | none => none
  | some k => if k = "" then none else some k

/- ## Cache tiers and operation traces -/

/-- A cache tier as an association list; insertion prepends, lookup takes the
newest binding, so insertion overwrites logically (and the list grows without
bound, like the source `Map` which is never pruned). -/
abbrev Tier := List (String × Entry)

/-- Tier lookup (`signedUrlCache.get` / a Redis read of one key). -/
def tierGet : Tier → String → Option Entry
  | [], _ => none
  | (k', e) :: t, k => if k' = k then some e else tierGet t k

/-- Tier write (`signedUrlCache.set` / a Redis write of one key). -/
def tierSet (t : Tier) (k : String) (e : Entry) : Tier := (k, e) :: t

/-- The Redis key namespace used by `storage.ts`: `signed_url:` + file key. -/
def redisKey (k : String) : String := "signed_url:" ++ k

/-- The expiry guard used at every cache read in `storage.ts`:
`expiresAt > Date.now() + SAFETY_BUFFER_MS`. -/
def entryValid (now : Int) (e : Entry) : Bool := e.expiresAt > now + SAFETY_BUFFER_MS

/-- Whether a tier holds a valid (non-expired, per the safety buffer) entry. -/
def tierValid (now : Int) (t : Tier) (k : String) : Bool :=
  match tierGet t k with
  | some e => entryValid now e
  | none => false

/-- One logged cache/signer operation. -/
inductive Op where
  | memGet (key : String)
  | memPut (key : String)
  | redisGet (key : String)
  | redisMget (keys : List String)
  | redisSet (key : String)
  | redisPipeline (keys : List String)
  | signerCall (key : String)
deriving DecidableEq, Repr

/-- The keys of the signer calls in a trace, in order. -/
def signerKeys (ops : List Op) : List String :=
  ops.filterMap (fun o => match o with | Op.signerCall k => some k | _ => none)

/-- Whether an operation touches a cache tier (everything except the signer). -/
def isCacheOp : Op → Bool
  | Op.signerCall _ => false
  | _ => true

/-- Modes of the deadline-guarded `redis.mget` race in `getAuthenticatedUrls`:
the read resolves before the 2000 ms timer, it rejects before the timer, or
the timer fires first and the in-flight read is abandoned. -/
inductive MgetMode where
  | ok
  | err
  | hang
deriving DecidableEq, Repr

/-- The ambient world of one resolution: the clock, the signer oracle and the
transport outcomes of the distributed tier. -/
structure Env where
  now : Int
  signer : String → Option String
  signerAttach : String → String → Option String
  redisGetFails : Bool
  redisSetFails : Bool
  mgetMode : MgetMode
  pipelineFails : Bool

/-- Mutable state threaded through the subsystem: the process-local
`signedUrlCache`, the distributed Redis contents, and the operation trace. -/
structure S where
  mem : Tier
  redis : Tier
  ops : List Op
deriving Repr, DecidableEq

/- ## Single-key path (`getSignedDownloadUrl`) -/

/-- Effect description of one single-key resolution: the promise outcome,
the local-tier writes, the distributed-tier writes that landed, and the
operations performed. Writes are returned as deltas so the same core can
describe both a sequential call (state threaded) and the concurrently started
calls of the batch fallback (all reading the pre-fallback state). -/
structure CoreOut where
  result : Outcome String
  memWrites : List (String × Entry)
  redisWrites : List (String × Entry)
  ops : List Op
deriving Repr

/-- Steps 3-5 of `getSignedDownloadUrl`: generate a new signed URL, record it
in the memory cache with `expiresAt = Date.now() + SIGNED_URL_CACHE_DURATION`,
then `await redis.set(...)`; a rejection of that awaited set is caught by the
surrounding catch block, which rethrows. -/
def signedDownloadCoreSign (env : Env) (fileKey : String) : CoreOut :=
  match env.signer fileKey with
  | none =>
    ⟨Outcome.err, [], [],
      [Op.memGet fileKey, Op.redisGet fileKey, Op.signerCall fileKey]⟩
  | some signedUrl =>
    let e : Entry := ⟨signedUrl, env.now + SIGNED_URL_CACHE_DURATION⟩
    if env.redisSetFails then
      ⟨Outcome.err, [(fileKey, e)], [],
        [Op.memGet fileKey, Op.redisGet fileKey, Op.signerCall fileKey,
         Op.memPut fileKey, Op.redisSet fileKey]⟩
    else
      ⟨Outcome.ok signedUrl, [(fileKey, e)], [(redisKey fileKey, e)],
        [Op.memGet fileKey, Op.redisGet fileKey, Op.signerCall fileKey,
         Op.memPut fileKey, Op.redisSet fileKey]⟩

/-- Step 2 of `getSignedDownloadUrl`: `await redis.get(cacheKey)`. A transport
rejection is caught by the surrounding catch block, which logs and rethrows,
so it surfaces as an error. A valid hit is backfilled into the memory cache
with the expiry stored in Redis and returned. Anything else falls through to
signing. -/
def signedDownloadCoreRedis (env : Env) (redis0 : Tier) (fileKey : String) : CoreOut :=
  if env.redisGetFails then
    ⟨Outcome.err, [], [], [Op.memGet fileKey, Op.redisGet fileKey]⟩
  else
    match tierGet redis0 (redisKey fileKey) with
    | some cached =>
      if entryValid env.now cached then
        ⟨Outcome.ok cached.url, [(fileKey, cached)], [],
          [Op.memGet fileKey, Op.redisGet fileKey, Op.memPut fileKey]⟩
      else signedDownloadCoreSign env fileKey
    | none => signedDownloadCoreSign env fileKey

/-- The body of `getSignedDownloadUrl fileKey` as a function of the tier
contents it reads: memory check first (return on a valid hit), then the
Redis check, then fresh signing. -/
def signedDownloadCore (env : Env) (mem0 redis0 : Tier) (fileKey : String) : CoreOut :=
  match tierGet mem0 fileKey with
  | some memCached =>
    if entryValid env.now memCached then
      ⟨Outcome.ok memCached.url, [], [], [Op.memGet fileKey]⟩
    else signedDownloadCoreRedis env redis0 fileKey
  | none => signedDownloadCoreRedis env redis0 fileKey

/-- Apply a list of writes to a tier, in order. -/
def applyWrites (t : Tier) (ws : List (String × Entry)) : Tier :=
  ws.foldl (fun acc kv => tierSet acc kv.1 kv.2) t

/-- Apply the effects of one core resolution to the state. -/
def applyCore (s : S) (o : CoreOut) : S :=
  ⟨applyWrites s.mem o.memWrites, applyWrites s.redis o.redisWrites, s.ops ++ o.ops⟩

/-- `getSignedDownloadUrl` of `storage.ts`: the single-key resolve path,
threading the caches sequentially. -/
def getSignedDownloadUrl (env : Env) (s : S) (fileKey : String) : Outcome String × S :=
  let o := signedDownloadCore env s.mem s.redis fileKey
  (o.result, applyCore s o)

/-- `getAuthenticatedUrl` of `storage.ts`: parse the reference; a falsy key
(no match, or an empty parsed key) returns the input unchanged; otherwise
resolve through `getSignedDownloadUrl`. -/
def getAuthenticatedUrl (env : Env) (s : S) (fileUrl : String) : Outcome String × S :=
  match truthyKey (parseR2Url fileUrl) with
  | none => (Outcome.ok fileUrl, s)
  | some fileKey => getSignedDownloadUrl env s fileKey

/-- `getSignedDownloadUrlForAttachment` of `storage.ts`: signs directly with a
content-disposition filename; no cache tier is read or written. The signer
call itself is logged (it happens whether or not it then rejects). -/
def getSignedDownloadUrlForAttachment (env : Env) (s : S) (fileKey fileName : String) :
    Outcome String × S :=
  match env.signerAttach fileKey fileName with
  | none => (Outcome.err, ⟨s.mem, s.redis, s.ops ++ [Op.signerCall fileKey]⟩)
  | some signedUrl => (Outcome.ok signedUrl, ⟨s.mem, s.redis, s.ops ++ [Op.signerCall fileKey]⟩)

/- ## Batch path (`getAuthenticatedUrls`) -/

/-- The per-index view of the batch: `results[i]` has been filled, or the
index sits in `missingIndices` carrying its (truthy) parsed key. -/
inductive Slot where
  | filled (url : String)
  | missing (key : String)
deriving DecidableEq, Repr

/-- The value a slot contributes to the `results` array; a still-missing slot
contributes the `''` the array was initialised with (`new Array(n).fill('')`),
which is only observable if nothing ever fills it. -/
def slotValue : Slot → String
  | Slot.filled u => u
  | Slot.missing _ => ""

/-- The key of a still-missing slot. -/
def slotMissingKey : Slot → Option String
  | Slot.filled _ => none
  | Slot.missing k => some k

/-- The value a slot contributes to `results` after the signing step: a
filled slot keeps its value, a still-missing slot receives the URL its
(fulfilled) signer call produced. -/
def slotFill (env : Env) : Slot → String
  | Slot.filled u => u
  | Slot.missing k => match env.signer k with | some u => u | none => ""

/-- Step 1 of `getAuthenticatedUrls` at one index: a falsy key passes the
original string through; a valid memory hit fills the result; otherwise the
index joins `missingIndices`. -/
def batchStep1 (env : Env) (mem0 : Tier) (fileUrl : String) : Slot :=
  match truthyKey (parseR2Url fileUrl) with
  | none => Slot.filled fileUrl
  | some key =>
    match tierGet mem0 key with
    | some memCached =>
      if entryValid env.now memCached then Slot.filled memCached.url
      else Slot.missing key
    | none => Slot.missing key

/-- Step 2 of `getAuthenticatedUrls` at one missing index, when the `mget`
resolved in time: a valid Redis value fills the result, anything else leaves
the index in `stillMissingIndices`. -/
def batchStep2Slot (env : Env) (redis0 : Tier) : Slot → Slot
  | Slot.filled u => Slot.filled u
  | Slot.missing k =>
    match tierGet redis0 (redisKey k) with
    | some val =>
      if entryValid env.now val then Slot.filled val.url else Slot.missing k
    | none => Slot.missing k

/-- The memory-cache backfill performed by step 2 for a valid Redis value
(`signedUrlCache.set` with the expiry stored in Redis). -/
def batchStep2Backfill (env : Env) (redis0 : Tier) : Slot → List (String × Entry)
  | Slot.filled _ => []
  | Slot.missing k =>
    match tierGet redis0 (redisKey k) with
    | some val => if entryValid env.now val then [(k, val)] else []
    | none => []

/-- Promise.all over settled outcomes: all values, or a rejection. -/
def promiseAll : List (Outcome String) → Option (List String)
  | [] => some []
  | Outcome.ok u :: rest => (promiseAll rest).map (fun us => u :: us)
  | Outcome.err :: _ => none

/-- One mapped call of the fallback `Promise.all(fileUrls.map(url =>
getAuthenticatedUrl(url)))`: the parse plus the single-key core, reading the
tier contents as they stood when the fallback started (all mapped calls begin
before any of them completes, so every memory check sees the pre-fallback
`signedUrlCache` and every Redis read is issued before any write of the
fallback lands). -/
def resolveAgainst (env : Env) (mem0 redis0 : Tier) (fileUrl : String) : CoreOut :=
  match truthyKey (parseR2Url fileUrl) with
  | none => ⟨Outcome.ok fileUrl, [], [], []⟩
  | some fileKey => signedDownloadCore env mem0 redis0 fileKey

/-- The catch-block fallback of `getAuthenticatedUrls`:
`return Promise.all(fileUrls.map(url => getAuthenticatedUrl(url)))`.
The writes of the individual resolutions are applied in index order (the
entries written for one key do not depend on scheduling), and the batch call
settles like `Promise.all`: any per-key rejection rejects the whole call. -/
def batchFallback (env : Env) (s : S) (fileUrls : List String) : Outcome (List String) × S :=
  let outs := fileUrls.map (resolveAgainst env s.mem s.redis)
  let sAll := outs.foldl applyCore s
  match promiseAll (outs.map CoreOut.result) with
  | some urls => (Outcome.ok urls, sAll)
  | none => (Outcome.err, sAll)

/-- Steps 3-4 of `getAuthenticatedUrls` on the still-missing slots: one
signer call per still-missing index, issued in parallel, every new entry
carrying the single `expiresAt = Date.now() + SIGNED_URL_CACHE_DURATION`
computed before the map; each fulfilled signing writes the memory cache
immediately; if every signing fulfils, the new entries are written to Redis
through one fire-and-forget pipeline (its failure only warns) and the filled
results are returned. If some signing rejects, `Promise.all` rejects: the
signings that fulfilled have already written the memory cache, and the outer
catch falls back to per-key resolution of the whole input. -/
def batchSign (env : Env) (s : S) (fileUrls : List String) (slots : List Slot) :
    Outcome (List String) × S :=
  let stillKeys := slots.filterMap slotMissingKey
  let signOps := stillKeys.map Op.signerCall
  let expiresAt := env.now + SIGNED_URL_CACHE_DURATION
  if stillKeys.all (fun k => (env.signer k).isSome) then
    let entries := stillKeys.filterMap
      (fun k => (env.signer k).map (fun u => (k, Entry.mk u expiresAt)))
    let results := slots.map (slotFill env)
    let memAfter := applyWrites s.mem entries
    let opsAfterSign := s.ops ++ signOps ++ entries.map (fun kv => Op.memPut kv.1)
    if entries = [] then
      (Outcome.ok results, ⟨memAfter, s.redis, opsAfterSign⟩)
    else
      let redisAfter :=
        if env.pipelineFails then s.redis
        else applyWrites s.redis (entries.map (fun kv => (redisKey kv.1, kv.2)))
      (Outcome.ok results,
        ⟨memAfter, redisAfter, opsAfterSign ++ [Op.redisPipeline (entries.map (fun kv => kv.1))]⟩)
  else
    let fulfilled := stillKeys.filterMap
      (fun k => (env.signer k).map (fun u => (k, Entry.mk u expiresAt)))
    let sFail : S :=
      ⟨applyWrites s.mem fulfilled, s.redis,
        s.ops ++ signOps ++ fulfilled.map (fun kv => Op.memPut kv.1)⟩
    batchFallback env sFail fileUrls

/-- `getAuthenticatedUrls` of `storage.ts`: the batch resolve path. An empty
input short-circuits. Step 1 classifies every index against the memory cache;
with no misses the results are returned without touching Redis. Otherwise one
`redis.mget` over the missing keys is raced against the 2000 ms timer: a
rejection is caught by the outer catch (which falls back to per-key
resolution), a timeout leaves every missing index still missing (the late
result, if any, is discarded), and an in-time reply fills and backfills the
valid values. Remaining misses are signed in parallel by `batchSign`. -/
def getAuthenticatedUrls (env : Env) (s : S) (fileUrls : List String) :
    Outcome (List String) × S :=
  if fileUrls = [] then (Outcome.ok [], s)
  else
    let slots1 := fileUrls.map (batchStep1 env s.mem)
    let step1Ops := fileUrls.filterMap (fun u => (truthyKey (parseR2Url u)).map Op.memGet)
    let missingKeys := slots1.filterMap slotMissingKey
    if missingKeys = [] then
      (Outcome.ok (slots1.map slotValue), ⟨s.mem, s.redis, s.ops ++ step1Ops⟩)
    else
      let sMget : S := ⟨s.mem, s.redis, s.ops ++ step1Ops ++ [Op.redisMget missingKeys]⟩
      match env.mgetMode with
      | MgetMode.err => batchFallback env sMget fileUrls
      | MgetMode.hang => batchSign env sMget fileUrls slots1
      | MgetMode.ok =>
        let slots2 := slots1.map (batchStep2Slot env s.redis)
        let backfills := slots1.foldl
          (fun acc sl => acc ++ batchStep2Backfill env s.redis sl) []
        let s2 : S :=
          ⟨applyWrites sMget.mem backfills, sMget.redis,
            sMget.ops ++ backfills.map (fun kv => Op.memPut kv.1)⟩
        if slots2.filterMap slotMissingKey = [] then
          (Outcome.ok (slots2.map slotValue), s2)
        else
          batchSign env s2 fileUrls slots2

/-- Modelled from the spec: the fallback described by the specification
resolves every requested key strictly sequentially, one after another,
through the single-key path, threading the cache state from one resolution
into the next and stopping at the first failure. This definition follows the
words of the spec (section 4.5 and the batch/fallback error-handling rules)
and exists to be compared with the behaviour of the source, whose fallback
starts all per-key resolutions concurrently. -/
def sequentialResolveSpec (env : Env) (s : S) : List String → Outcome (List String) × S
  | [] => (Outcome.ok [], s)
  | url :: rest =>
    match getAuthenticatedUrl env s url with
    | (Outcome.ok u, s1) =>
      match sequentialResolveSpec env s1 rest with
      | (Outcome.ok us, s2) => (Outcome.ok (u :: us), s2)
      | (Outcome.err, s2) => (Outcome.err, s2)
    | (Outcome.err, s1) => (Outcome.err, s1)

/-- The URL a single-key resolution produces, with `''` standing for a
rejection (used only where a separate hypothesis rules rejection out). -/
def singleValue (env : Env) (mem0 redis0 : Tier) (u : String) : String :=
  match (resolveAgainst env mem0 redis0 u).result with
  | Outcome.ok v => v
  | Outcome.err => ""

/-- The key for which the batch must call the signer, per input reference:
the parsed truthy key when neither tier holds a valid entry, none otherwise.
Used to state the partial-miss minimality property. -/
def needSignKey (env : Env) (mem0 redis0 : Tier) (u : String) : Option String :=
  match truthyKey (parseR2Url u) with
  | none => none
  | some k =>
    if tierValid env.now mem0 k = true then none
    else if tierValid env.now redis0 (redisKey k) = true then none
    else some k

/- ## Concrete fixtures for the closed-form checks -/

/-- A deterministic signer oracle for concrete evaluations. -/
def demoSigner : String → Option String :=
  fun k => some ("https://signed.example/" ++ k)

/-- A deterministic attachment-signer oracle for concrete evaluations. -/
def demoAttach : String → String → Option String :=
  fun k fn => some ("https://signed.example/" ++ k ++ "?att=" ++ fn)

/-- A failure-free environment at time 1000000 ms. -/
def demoEnv : Env :=
  { now := 1000000, signer := demoSigner, signerAttach := demoAttach,
    redisGetFails := false, redisSetFails := false,
    mgetMode := MgetMode.ok, pipelineFails := false }

/-- Same world, but `redis.get` rejects. -/
def envGetFail : Env := { demoEnv with redisGetFails := true }

/-- Same world, but the awaited `redis.set` rejects. -/
def envSetFail : Env := { demoEnv with redisSetFails := true }

/-- Same world, but `redis.mget` rejects before the deadline. -/
def envMgetErr : Env := { demoEnv with mgetMode := MgetMode.err }

/-- Same world, but `redis.mget` hangs past the 2000 ms deadline. -/
def envHang : Env := { demoEnv with mgetMode := MgetMode.hang }

/-- Cold caches, empty trace. -/
def demoS : S := ⟨[], [], []⟩

/-- A state with one valid memory entry for key `a` and one valid Redis entry
for key `b` (expiries comfortably outside the safety buffer at time
1000000). -/
def warmS : S :=
  ⟨[("a", ⟨"https://warm.example/a", 2000000⟩)],
   [("signed_url:b", ⟨"https://warm.example/b", 2000000⟩)], []⟩

/-- The state left by resolving the cold key `k` once in `demoEnv` (memory
and Redis both carry the fresh entry; the trace shows one full miss path). -/
def c7S1 : S :=
  ⟨[("k", ⟨"https://signed.example/k", 4000000⟩)],
   [("signed_url:k", ⟨"https://signed.example/k", 4000000⟩)],
   [Op.memGet "k", Op.redisGet "k", Op.signerCall "k", Op.memPut "k",
    Op.redisSet "k"]⟩

/- ## Helper lemmas -/

theorem mapCongrOn {α β : Type} {f g : α → β} :
    ∀ {l : List α}, (∀ a ∈ l, f a = g a) → l.map f = l.map g
  | [], _ => rfl
  | a :: l, h => by
    simp only [List.map_cons]
    exact congrArg₂ List.cons (h a (List.mem_cons_self a l))
      (mapCongrOn (fun x hx => h x (List.mem_cons_of_mem a hx)))

theorem filterMapNil {α β : Type} {f : α → Option β} :
    ∀ {l : List α}, l.filterMap f = [] → ∀ a ∈ l, f a = none := by
  intro l
  induction l with
  | nil => intro _ a ha; cases ha
  | cons x xs ih =>
    intro h a ha
    rw [List.filterMap_cons] at h
    cases hx : f x with
    | none =>
      rw [hx] at h
      rcases List.mem_cons.mp ha with rfl | hmem
      · exact hx
      · exact ih h a hmem
    | some b => rw [hx] at h; cases h

/-- Full characterisation of `batchStep1` when it leaves an index missing. -/
theorem batchStep1_missing {env : Env} {mem0 : Tier} {u k : String}
    (h : batchStep1 env mem0 u = Slot.missing k) :
    truthyKey (parseR2Url u) = some k ∧ tierValid env.now mem0 k = false := by
  unfold batchStep1 at h
  cases ht : truthyKey (parseR2Url u) with
  | none => simp [ht] at h
  | some key =>
    simp only [ht] at h
    cases hm : tierGet mem0 key with
    | none =>
      simp only [hm] at h
      cases h
      exact ⟨rfl, by unfold tierValid; rw [hm]⟩
    | some c =>
      cases hv : entryValid env.now c with
      | true => simp [hm, hv] at h
      | false =>
        simp only [hm, hv] at h
        simp at h
        subst h
        exact ⟨rfl, by unfold tierValid; rw [hm]; simp [hv]⟩

theorem core_memMiss {env : Env} {mem0 redis0 : Tier} {k : String}
    (h : tierValid env.now mem0 k = false) :
    signedDownloadCore env mem0 redis0 k = signedDownloadCoreRedis env redis0 k := by
  unfold signedDownloadCore
  cases hm : tierGet mem0 k with
  | none => rfl
  | some c =>
    unfold tierValid at h
    rw [hm] at h
    have hv : entryValid env.now c = false := by simpa using h
    simp [hm, hv]

theorem core_memHit {env : Env} {mem0 redis0 : Tier} {k : String} {c : Entry}
    (h : tierGet mem0 k = some c) (hv : entryValid env.now c = true) :
    signedDownloadCore env mem0 redis0 k =
      ⟨Outcome.ok c.url, [], [], [Op.memGet k]⟩ := by
  unfold signedDownloadCore
  simp [h, hv]

theorem coreRedis_hit {env : Env} {redis0 : Tier} {k : String} {v : Entry}
    (hg : env.redisGetFails = false)
    (h : tierGet redis0 (redisKey k) = some v) (hv : entryValid env.now v = true) :
    signedDownloadCoreRedis env redis0 k =
      ⟨Outcome.ok v.url, [(k, v)], [],
        [Op.memGet k, Op.redisGet k, Op.memPut k]⟩ := by
  unfold signedDownloadCoreRedis
  simp [hg, h, hv]

theorem coreRedis_miss {env : Env} {redis0 : Tier} {k : String}
    (hg : env.redisGetFails = false)
    (h : tierValid env.now redis0 (redisKey k) = false) :
    signedDownloadCoreRedis env redis0 k = signedDownloadCoreSign env k := by
  unfold signedDownloadCoreRedis
  cases hr : tierGet redis0 (redisKey k) with
  | none => simp [hg]
  | some v =>
    unfold tierValid at h
    rw [hr] at h
    have hv : entryValid env.now v = false := by simpa using h
    simp [hg, hr, hv]

theorem coreSign_ok {env : Env} {k w : String}
    (hsig : env.signer k = some w) (hs : env.redisSetFails = false) :
    signedDownloadCoreSign env k =
      ⟨Outcome.ok w, [(k, ⟨w, env.now + SIGNED_URL_CACHE_DURATION⟩)],
        [(redisKey k, ⟨w, env.now + SIGNED_URL_CACHE_DURATION⟩)],
        [Op.memGet k, Op.redisGet k, Op.signerCall k, Op.memPut k, Op.redisSet k]⟩ := by
  unfold signedDownloadCoreSign
  simp [hsig, hs]

theorem resolve_of_step1_filled {env : Env} {mem0 : Tier} {u v : String} (redis0 : Tier)
    (h : batchStep1 env mem0 u = Slot.filled v) :
    (resolveAgainst env mem0 redis0 u).result = Outcome.ok v := by
  unfold batchStep1 at h
  unfold resolveAgainst
  cases ht : truthyKey (parseR2Url u) with
  | none =>
    simp only [ht] at h ⊢
    cases h
    rfl
  | some k =>
    simp only [ht] at h ⊢
    cases hm : tierGet mem0 k with
    | none => simp [hm] at h
    | some c =>
      cases hv : entryValid env.now c with
      | false => simp [hm, hv] at h
      | true =>
        simp only [hm, hv] at h
        simp at h
        subst h
        rw [core_memHit hm hv]

theorem batchStep2_missing {env : Env} {redis0 : Tier} {sl : Slot} {k : String}
    (h : batchStep2Slot env redis0 sl = Slot.missing k) :
    sl = Slot.missing k ∧ tierValid env.now redis0 (redisKey k) = false := by
  cases sl with
  | filled u => simp [batchStep2Slot] at h
  | missing k' =>
    unfold batchStep2Slot at h
    cases hr : tierGet redis0 (redisKey k') with
    | none =>
      simp only [hr] at h
      cases h
      exact ⟨rfl, by unfold tierValid; rw [hr]⟩
    | some val =>
      cases hv : entryValid env.now val with
      | true => simp [hr, hv] at h
      | false =>
        simp only [hr, hv] at h
        simp at h
        subst h
        exact ⟨rfl, by unfold tierValid; rw [hr]; simp [hv]⟩

theorem batchStep2_filled_of_missing {env : Env} {redis0 : Tier} {k v : String}
    (h : batchStep2Slot env redis0 (Slot.missing k) = Slot.filled v) :
    ∃ val, tierGet redis0 (redisKey k) = some val ∧ entryValid env.now val = true ∧
      val.url = v := by
  unfold batchStep2Slot at h
  cases hr : tierGet redis0 (redisKey k) with
  | none => simp [hr] at h
  | some val =>
    cases hv : entryValid env.now val with
    | false => simp [hr, hv] at h
    | true =>
      simp only [hr, hv] at h
      simp at h
      exact ⟨val, rfl, hv, h⟩

theorem resolve_of_slotEval_filled {env : Env} {mem0 redis0 : Tier} {u v : String}
    (hg : env.redisGetFails = false)
    (h : batchStep2Slot env redis0 (batchStep1 env mem0 u) = Slot.filled v) :
    (resolveAgainst env mem0 redis0 u).result = Outcome.ok v := by
  cases h1 : batchStep1 env mem0 u with
  | filled w =>
    rw [h1] at h
    simp [batchStep2Slot] at h
    subst h
    exact resolve_of_step1_filled redis0 h1
  | missing k =>
    rw [h1] at h
    obtain ⟨ht, hmv⟩ := batchStep1_missing h1
    obtain ⟨val, hr, hv, hu⟩ := batchStep2_filled_of_missing h
    unfold resolveAgainst
    simp only [ht]
    rw [core_memMiss hmv, coreRedis_hit hg hr hv, hu]

theorem resolve_of_slotEval_missing {env : Env} {mem0 redis0 : Tier} {u k w : String}
    (hg : env.redisGetFails = false) (hs : env.redisSetFails = false)
    (h : batchStep2Slot env redis0 (batchStep1 env mem0 u) = Slot.missing k)
    (hw : env.signer k = some w) :
    (resolveAgainst env mem0 redis0 u).result = Outcome.ok w := by
  obtain ⟨h1, hrv⟩ := batchStep2_missing h
  obtain ⟨ht, hmv⟩ := batchStep1_missing h1
  unfold resolveAgainst
  simp only [ht]
  rw [core_memMiss hmv, coreRedis_miss hg hrv, coreSign_ok hw hs]

theorem slotFill_eq_singleValue {env : Env} {mem0 redis0 : Tier} {u : String}
    (hg : env.redisGetFails = false) (hs : env.redisSetFails = false)
    (hsig : ∀ k, (env.signer k).isSome = true) :
    slotFill env (batchStep2Slot env redis0 (batchStep1 env mem0 u)) =
      singleValue env mem0 redis0 u := by
  cases h : batchStep2Slot env redis0 (batchStep1 env mem0 u) with
  | filled v =>
    unfold singleValue
    rw [resolve_of_slotEval_filled hg h]
    rfl
  | missing k =>
    obtain ⟨w, hw⟩ := Option.isSome_iff_exists.mp (hsig k)
    unfold singleValue
    rw [resolve_of_slotEval_missing hg hs h hw]
    simp [slotFill, hw]

theorem slotValue_eq_fill_of_none {env : Env} {sl : Slot}
    (h : slotMissingKey sl = none) : slotValue sl = slotFill env sl := by
  cases sl with
  | filled v => rfl
  | missing k => simp [slotMissingKey] at h

/-- Central evaluation lemma for the batch path: when the distributed tier
answers in time and no transport or signer failure is injected, the batch
returns exactly the per-key single-resolution values, positionally. -/
theorem batch_result_ok (env : Env) (s : S) (urls : List String)
    (hm : env.mgetMode = MgetMode.ok)
    (hg : env.redisGetFails = false) (hs : env.redisSetFails = false)
    (hsig : ∀ k, (env.signer k).isSome = true) :
    (getAuthenticatedUrls env s urls).1 =
      Outcome.ok (urls.map (singleValue env s.mem s.redis)) := by
  by_cases hnil : urls = []
  · subst hnil; rfl
  · unfold getAuthenticatedUrls
    rw [if_neg hnil]
    dsimp only
    by_cases h1 : (urls.map (batchStep1 env s.mem)).filterMap slotMissingKey = []
    · rw [if_pos h1]
      dsimp only
      refine congrArg Outcome.ok ?_
      rw [List.map_map]
      apply mapCongrOn
      intro a ha
      have hnone := filterMapNil h1 _ (List.mem_map_of_mem _ ha)
      cases h2 : batchStep1 env s.mem a with
      | filled v =>
        have hr := resolve_of_step1_filled s.redis h2
        simp [Function.comp, h2, slotValue, singleValue, hr]
      | missing k => rw [h2] at hnone; simp [slotMissingKey] at hnone
    · rw [if_neg h1, hm]
      dsimp only
      by_cases h2 :
          ((urls.map (batchStep1 env s.mem)).map (batchStep2Slot env s.redis)).filterMap
            slotMissingKey = []
      · rw [if_pos h2]
        dsimp only
        refine congrArg Outcome.ok ?_
        calc ((urls.map (batchStep1 env s.mem)).map (batchStep2Slot env s.redis)).map slotValue
            = ((urls.map (batchStep1 env s.mem)).map (batchStep2Slot env s.redis)).map
                (slotFill env) := by
              apply mapCongrOn
              intro sl hsl
              exact slotValue_eq_fill_of_none (filterMapNil h2 _ hsl)
          _ = urls.map (singleValue env s.mem s.redis) := by
              rw [List.map_map, List.map_map]
              apply mapCongrOn
              intro a ha
              exact slotFill_eq_singleValue hg hs hsig
      · rw [if_neg h2]
        unfold batchSign
        have hall :
            (((urls.map (batchStep1 env s.mem)).map
                (batchStep2Slot env s.redis)).filterMap slotMissingKey).all
              (fun k => (env.signer k).isSome) = true :=
          List.all_eq_true.mpr (fun k _ => hsig k)
        rw [if_pos hall]
        dsimp only
        split
        · dsimp only
          refine congrArg Outcome.ok ?_
          rw [List.map_map, List.map_map]
          apply mapCongrOn
          intro a ha
          exact slotFill_eq_singleValue hg hs hsig
        · dsimp only
          refine congrArg Outcome.ok ?_
          rw [List.map_map, List.map_map]
          apply mapCongrOn
          intro a ha
          exact slotFill_eq_singleValue hg hs hsig

/-- Evaluation lemma for the deadline-elapsed batch path: every index that
missed the memory cache is signed directly; no Redis content is consulted. -/
theorem batch_result_hang (env : Env) (s : S) (urls : List String)
    (hh : env.mgetMode = MgetMode.hang)
    (hsig : ∀ k, (env.signer k).isSome = true) :
    (getAuthenticatedUrls env s urls).1 =
      Outcome.ok (urls.map (fun u => slotFill env (batchStep1 env s.mem u))) := by
  by_cases hnil : urls = []
  · subst hnil; rfl
  · unfold getAuthenticatedUrls
    rw [if_neg hnil]
    dsimp only
    by_cases h1 : (urls.map (batchStep1 env s.mem)).filterMap slotMissingKey = []
    · rw [if_pos h1]
      dsimp only
      refine congrArg Outcome.ok ?_
      rw [List.map_map]
      apply mapCongrOn
      intro a ha
      exact slotValue_eq_fill_of_none (filterMapNil h1 _ (List.mem_map_of_mem _ ha))
    · rw [if_neg h1, hh]
      unfold batchSign
      have hall :
          ((urls.map (batchStep1 env s.mem)).filterMap slotMissingKey).all
            (fun k => (env.signer k).isSome) = true :=
        List.all_eq_true.mpr (fun k _ => hsig k)
      rw [if_pos hall]
      dsimp only
      split
      · dsimp only
        refine congrArg Outcome.ok ?_
        rw [List.map_map]
        rfl
      · dsimp only
        refine congrArg Outcome.ok ?_
        rw [List.map_map]
        rfl

/-- `signerKeys` distributes over trace concatenation. -/
theorem signerKeys_append (a b : List Op) :
    signerKeys (a ++ b) = signerKeys a ++ signerKeys b := by
  unfold signerKeys
  exact List.filterMap_append a b _

/-- A trace of pure cache operations contains no signer call. -/
theorem signerKeys_nil {ops : List Op} (h : ∀ o ∈ ops, isCacheOp o = true) :
    signerKeys ops = [] := by
  induction ops with
  | nil => rfl
  | cons o os ih =>
    have ho := h o (List.mem_cons_self _ _)
    have hrest : signerKeys os = [] := ih (fun x hx => h x (List.mem_cons_of_mem _ hx))
    unfold signerKeys at hrest ⊢
    rw [List.filterMap_cons]
    cases o with
    | memGet k => exact hrest
    | memPut k => exact hrest
    | redisGet k => exact hrest
    | redisMget ks => exact hrest
    | redisSet k => exact hrest
    | redisPipeline ks => exact hrest
    | signerCall k => simp [isCacheOp] at ho

theorem signerKeys_map_calls (ks : List String) :
    signerKeys (ks.map Op.signerCall) = ks := by
  induction ks with
  | nil => rfl
  | cons k ks ih =>
    unfold signerKeys at ih ⊢
    rw [List.map_cons, List.filterMap_cons]
    exact congrArg (fun l => k :: l) ih

theorem mem_signerKeys {k : String} {ops : List Op} :
    k ∈ signerKeys ops ↔ Op.signerCall k ∈ ops := by
  unfold signerKeys
  rw [List.mem_filterMap]
  constructor
  · rintro ⟨o, ho, he⟩
    cases o <;> simp_all
  · intro h
    exact ⟨Op.signerCall k, h, rfl⟩

theorem step1Ops_cache (urls : List String) :
    ∀ o ∈ urls.filterMap (fun u => (truthyKey (parseR2Url u)).map Op.memGet),
      isCacheOp o = true := by
  intro o ho
  obtain ⟨u, _, he⟩ := List.mem_filterMap.mp ho
  cases ht : truthyKey (parseR2Url u) with
  | none => rw [ht] at he; cases he
  | some k =>
    rw [ht] at he
    cases he
    rfl

theorem memPuts_cache (ws : List (String × Entry)) :
    ∀ o ∈ ws.map (fun kv => Op.memPut kv.1), isCacheOp o = true := by
  intro o ho
  obtain ⟨kv, _, he⟩ := List.mem_map.mp ho
  cases he
  rfl

theorem filterMapNilOf {α β : Type} {f : α → Option β} :
    ∀ {l : List α}, (∀ a ∈ l, f a = none) → l.filterMap f = []
  | [], _ => rfl
  | a :: l, h => by
    rw [List.filterMap_cons, h a (List.mem_cons_self a l)]
    exact filterMapNilOf (fun x hx => h x (List.mem_cons_of_mem a hx))

theorem filterMapCongrOn {α β : Type} {f g : α → Option β} :
    ∀ {l : List α}, (∀ a ∈ l, f a = g a) → l.filterMap f = l.filterMap g
  | [], _ => rfl
  | a :: l, h => by
    rw [List.filterMap_cons, List.filterMap_cons, h a (List.mem_cons_self a l),
      filterMapCongrOn (fun x hx => h x (List.mem_cons_of_mem a hx))]

theorem signerKeys_step1Ops (urls : List String) :
    signerKeys (urls.filterMap (fun u => (truthyKey (parseR2Url u)).map Op.memGet)) = [] :=
  signerKeys_nil (step1Ops_cache urls)

theorem signerKeys_memPuts (ws : List (String × Entry)) :
    signerKeys (ws.map (fun kv => Op.memPut kv.1)) = [] :=
  signerKeys_nil (memPuts_cache ws)

theorem signerKeys_mget (ks : List String) : signerKeys [Op.redisMget ks] = [] := rfl

theorem signerKeys_pipeline (ks : List String) : signerKeys [Op.redisPipeline ks] = [] := rfl

theorem slots2_nil_of_slots1_nil {env : Env} {redis0 : Tier} {slots1 : List Slot}
    (h : slots1.filterMap slotMissingKey = []) :
    (slots1.map (batchStep2Slot env redis0)).filterMap slotMissingKey = [] := by
  apply filterMapNilOf
  intro sl hsl
  obtain ⟨sl0, h0, he⟩ := List.mem_map.mp hsl
  have hn := filterMapNil h _ h0
  cases sl0 with
  | filled u => rw [← he]; rfl
  | missing k => simp [slotMissingKey] at hn

/-- Trace lemma, deadline-elapsed mode: the signer calls of the batch are
exactly the keys that missed the memory cache, in order. -/
theorem batch_ops_hang (env : Env) (s : S) (urls : List String)
    (hh : env.mgetMode = MgetMode.hang)
    (hsig : ∀ k, (env.signer k).isSome = true) :
    signerKeys (getAuthenticatedUrls env s urls).2.ops =
      signerKeys s.ops ++ (urls.map (batchStep1 env s.mem)).filterMap slotMissingKey := by
  by_cases hnil : urls = []
  · subst hnil; simp [getAuthenticatedUrls]
  · unfold getAuthenticatedUrls
    rw [if_neg hnil]
    dsimp only
    by_cases h1 : (urls.map (batchStep1 env s.mem)).filterMap slotMissingKey = []
    · rw [if_pos h1]
      dsimp only
      rw [h1, signerKeys_append, signerKeys_step1Ops]
    · rw [if_neg h1, hh]
      unfold batchSign
      have hall :
          ((urls.map (batchStep1 env s.mem)).filterMap slotMissingKey).all
            (fun k => (env.signer k).isSome) = true :=
        List.all_eq_true.mpr (fun k _ => hsig k)
      rw [if_pos hall]
      dsimp only
      split
      · dsimp only
        simp only [signerKeys_append, signerKeys_step1Ops, signerKeys_memPuts,
          signerKeys_mget, signerKeys_map_calls, List.append_nil, List.nil_append,
          List.append_assoc]
      · dsimp only
        simp only [signerKeys_append, signerKeys_step1Ops, signerKeys_memPuts,
          signerKeys_mget, signerKeys_pipeline, signerKeys_map_calls, List.append_nil,
          List.nil_append, List.append_assoc]

/-- Trace lemma, in-time mode: the signer calls of the batch are exactly the
keys that missed both the memory cache and Redis, in order. -/
theorem batch_ops_ok (env : Env) (s : S) (urls : List String)
    (hm : env.mgetMode = MgetMode.ok)
    (hsig : ∀ k, (env.signer k).isSome = true) :
    signerKeys (getAuthenticatedUrls env s urls).2.ops =
      signerKeys s.ops ++
        ((urls.map (batchStep1 env s.mem)).map (batchStep2Slot env s.redis)).filterMap
          slotMissingKey := by
  by_cases hnil : urls = []
  · subst hnil; simp [getAuthenticatedUrls]
  · unfold getAuthenticatedUrls
    rw [if_neg hnil]
    dsimp only
    by_cases h1 : (urls.map (batchStep1 env s.mem)).filterMap slotMissingKey = []
    · rw [if_pos h1]
      dsimp only
      rw [slots2_nil_of_slots1_nil h1, signerKeys_append, signerKeys_step1Ops]
    · rw [if_neg h1, hm]
      dsimp only
      by_cases h2 :
          ((urls.map (batchStep1 env s.mem)).map (batchStep2Slot env s.redis)).filterMap
            slotMissingKey = []
      · rw [if_pos h2]
        dsimp only
        rw [h2]
        simp only [signerKeys_append, signerKeys_step1Ops, signerKeys_memPuts,
          signerKeys_mget, List.append_nil, List.nil_append, List.append_assoc]
      · rw [if_neg h2]
        unfold batchSign
        have hall :
            (((urls.map (batchStep1 env s.mem)).map
                (batchStep2Slot env s.redis)).filterMap slotMissingKey).all
              (fun k => (env.signer k).isSome) = true :=
          List.all_eq_true.mpr (fun k _ => hsig k)
        rw [if_pos hall]
        dsimp only
        split
        · dsimp only
          simp only [signerKeys_append, signerKeys_step1Ops, signerKeys_memPuts,
            signerKeys_mget, signerKeys_map_calls, List.append_nil, List.nil_append,
            List.append_assoc]
        · dsimp only
          simp only [signerKeys_append, signerKeys_step1Ops, signerKeys_memPuts,
            signerKeys_mget, signerKeys_pipeline, signerKeys_map_calls, List.append_nil,
            List.nil_append, List.append_assoc]

theorem coreRedis_fail {env : Env} {redis0 : Tier} {k : String}
    (h : env.redisGetFails = true) :
    signedDownloadCoreRedis env redis0 k =
      ⟨Outcome.err, [], [], [Op.memGet k, Op.redisGet k]⟩ := by
  unfold signedDownloadCoreRedis
  simp [h]

theorem coreSign_none {env : Env} {k : String} (h : env.signer k = none) :
    signedDownloadCoreSign env k =
      ⟨Outcome.err, [], [], [Op.memGet k, Op.redisGet k, Op.signerCall k]⟩ := by
  unfold signedDownloadCoreSign
  simp [h]

theorem coreSign_setFail {env : Env} {k w : String}
    (hsig : env.signer k = some w) (hs : env.redisSetFails = true) :
    signedDownloadCoreSign env k =
      ⟨Outcome.err, [(k, ⟨w, env.now + SIGNED_URL_CACHE_DURATION⟩)], [],
        [Op.memGet k, Op.redisGet k, Op.signerCall k, Op.memPut k, Op.redisSet k]⟩ := by
  unfold signedDownloadCoreSign
  simp [hsig, hs]

theorem coreSign_hasCall (env : Env) (k : String) :
    Op.signerCall k ∈ (signedDownloadCoreSign env k).ops := by
  unfold signedDownloadCoreSign
  cases env.signer k with
  | none => simp
  | some w =>
    by_cases hs : env.redisSetFails = true
    · simp [hs]
    · simp at hs
      simp [hs]

theorem tierGet_set_self (t : Tier) (k : String) (e : Entry) :
    tierGet (tierSet t k e) k = some e := by
  unfold tierSet tierGet
  simp

theorem tierGet_mem {t : Tier} {k : String} {e : Entry}
    (h : tierGet t k = some e) : (k, e) ∈ t := by
  induction t with
  | nil => cases h
  | cons p t ih =>
    unfold tierGet at h
    by_cases hk : p.1 = k
    · rw [if_pos hk] at h
      cases h
      exact List.mem_cons.mpr (Or.inl (by rw [← hk]))
    · rw [if_neg hk] at h
      exact List.mem_cons_of_mem _ (ih h)

theorem batchStep1_eq_missing {env : Env} {mem0 : Tier} {u k : String}
    (ht : truthyKey (parseR2Url u) = some k)
    (hmv : tierValid env.now mem0 k = false) :
    batchStep1 env mem0 u = Slot.missing k := by
  unfold batchStep1
  rw [ht]
  unfold tierValid at hmv
  cases hm : tierGet mem0 k with
  | none => simp [hm]
  | some c =>
    rw [hm] at hmv
    have hv : entryValid env.now c = false := by simpa using hmv
    simp [hm, hv]

theorem batchStep2_eq_missing {env : Env} {redis0 : Tier} {k : String}
    (hrv : tierValid env.now redis0 (redisKey k) = false) :
    batchStep2Slot env redis0 (Slot.missing k) = Slot.missing k := by
  unfold batchStep2Slot
  unfold tierValid at hrv
  cases hr : tierGet redis0 (redisKey k) with
  | none => simp [hr]
  | some val =>
    rw [hr] at hrv
    have hv : entryValid env.now val = false := by simpa using hrv
    simp [hr, hv]

theorem slotMissingKey_step2_missing (env : Env) (redis0 : Tier) (k : String) :
    slotMissingKey (batchStep2Slot env redis0 (Slot.missing k)) =
      if tierValid env.now redis0 (redisKey k) = true then none else some k := by
  unfold batchStep2Slot tierValid
  cases hr : tierGet redis0 (redisKey k) with
  | none => simp [hr, slotMissingKey]
  | some val => cases hv : entryValid env.now val <;> simp [hr, hv, slotMissingKey]

/-- Pointwise identity between the slot pipeline and `needSignKey`. -/
theorem slotMissingKey_eval (env : Env) (mem0 redis0 : Tier) (u : String) :
    slotMissingKey (batchStep2Slot env redis0 (batchStep1 env mem0 u)) =
      needSignKey env mem0 redis0 u := by
  unfold needSignKey
  cases ht : truthyKey (parseR2Url u) with
  | none =>
    have h1 : batchStep1 env mem0 u = Slot.filled u := by unfold batchStep1; rw [ht]
    rw [h1]
    rfl
  | some k =>
    by_cases hmv : tierValid env.now mem0 k = true
    · have hx := hmv
      unfold tierValid at hx
      cases hm : tierGet mem0 k with
      | none => rw [hm] at hx; cases hx
      | some c =>
        rw [hm] at hx
        have hv : entryValid env.now c = true := by simpa using hx
        have h1 : batchStep1 env mem0 u = Slot.filled c.url := by
          unfold batchStep1
          rw [ht]
          simp [hm, hv]
        rw [h1]
        simp [batchStep2Slot, slotMissingKey, hmv]
    · have hmv' : tierValid env.now mem0 k = false := by
        cases h : tierValid env.now mem0 k
        · rfl
        · exact absurd h hmv
      rw [batchStep1_eq_missing ht hmv', slotMissingKey_step2_missing]
      simp [hmv']

theorem getAuthenticatedUrl_fst (env : Env) (s : S) (u : String) :
    (getAuthenticatedUrl env s u).1 = (resolveAgainst env s.mem s.redis u).result := by
  unfold getAuthenticatedUrl resolveAgainst getSignedDownloadUrl
  cases truthyKey (parseR2Url u) <;> rfl

theorem resolveAgainst_ok (env : Env) (mem0 redis0 : Tier) (u : String)
    (hg : env.redisGetFails = false) (hs : env.redisSetFails = false)
    (hsig : ∀ k, (env.signer k).isSome = true) :
    (resolveAgainst env mem0 redis0 u).result =
      Outcome.ok (singleValue env mem0 redis0 u) := by
  cases h : batchStep2Slot env redis0 (batchStep1 env mem0 u) with
  | filled v =>
    have hr := resolve_of_slotEval_filled hg h
    unfold singleValue
    rw [hr]
  | missing k =>
    obtain ⟨w, hw⟩ := Option.isSome_iff_exists.mp (hsig k)
    have hr := resolve_of_slotEval_missing hg hs h hw
    unfold singleValue
    rw [hr]

theorem promiseAll_err {outs : List (Outcome String)} (h : Outcome.err ∈ outs) :
    promiseAll outs = none := by
  induction outs with
  | nil => cases h
  | cons o os ih =>
    cases o with
    | err => rfl
    | ok v =>
      rcases List.mem_cons.mp h with h0 | hmem
      · cases h0
      · unfold promiseAll
        rw [ih hmem]
        rfl

theorem promiseAll_singleValues (env : Env) (mem0 redis0 : Tier) :
    ∀ urls : List String,
      (∀ u ∈ urls, ∃ v, (resolveAgainst env mem0 redis0 u).result = Outcome.ok v) →
      promiseAll ((urls.map (resolveAgainst env mem0 redis0)).map CoreOut.result) =
        some (urls.map (singleValue env mem0 redis0))
  | [], _ => rfl
  | u :: rest, h => by
    obtain ⟨v, hv⟩ := h u (List.mem_cons_self _ _)
    have ih := promiseAll_singleValues env mem0 redis0 rest
      (fun x hx => h x (List.mem_cons_of_mem _ hx))
    simp only [List.map_cons]
    rw [hv]
    unfold promiseAll
    rw [ih]
    have hsv : singleValue env mem0 redis0 u = v := by
      unfold singleValue
      rw [hv]
    rw [hsv]
    rfl

theorem needSignKey_truthy {env : Env} {mem0 redis0 : Tier} {u k : String}
    (h : needSignKey env mem0 redis0 u = some k) :
    truthyKey (parseR2Url u) = some k := by
  unfold needSignKey at h
  cases ht : truthyKey (parseR2Url u) with
  | none => rw [ht] at h; cases h
  | some k2 =>
    simp only [ht] at h
    by_cases h1 : tierValid env.now mem0 k2 = true
    · rw [if_pos h1] at h; cases h
    · rw [if_neg h1] at h
      by_cases h2 : tierValid env.now redis0 (redisKey k2) = true
      · rw [if_pos h2] at h; cases h
      · rw [if_neg h2] at h
        cases h
        rfl

theorem count_filterMap {α β : Type} [DecidableEq β] (f : α → Option β) (b : β) :
    ∀ l : List α, (l.filterMap f).count b = l.countP (fun a => f a = some b)
  | [] => rfl
  | a :: l => by
    rw [List.filterMap_cons, List.countP_cons]
    cases hf : f a with
    | none =>
      rw [count_filterMap f b l]
      simp [hf]
    | some c =>
      rw [List.count_cons, count_filterMap f b l]
      by_cases hc : c = b
      · subst hc; simp [hf]
      · simp [hf, hc, Ne.symm hc]

/-- Where a fulfilled single-key resolution got its URL: the memory tier, the
Redis tier, or a fresh signer call. -/
theorem core_ok_url_source {env : Env} {mem0 redis0 : Tier} {k u : String}
    (h : (signedDownloadCore env mem0 redis0 k).result = Outcome.ok u) :
    (∃ e, tierGet mem0 k = some e ∧ e.url = u ∧ entryValid env.now e = true) ∨
    (∃ e, tierGet redis0 (redisKey k) = some e ∧ e.url = u ∧ entryValid env.now e = true) ∨
    env.signer k = some u := by
  by_cases hmv : tierValid env.now mem0 k = true
  · left
    have hx := hmv
    unfold tierValid at hx
    cases hm : tierGet mem0 k with
    | none => rw [hm] at hx; cases hx
    | some c =>
      rw [hm] at hx
      have hv : entryValid env.now c = true := by simpa using hx
      rw [core_memHit hm hv] at h
      cases h
      exact ⟨c, rfl, rfl, hv⟩
  · have hmv' : tierValid env.now mem0 k = false := by
      cases hq : tierValid env.now mem0 k
      · rfl
      · exact absurd hq hmv
    rw [core_memMiss hmv'] at h
    by_cases hgf : env.redisGetFails = true
    · rw [coreRedis_fail hgf] at h; cases h
    · have hg : env.redisGetFails = false := by
        cases hq : env.redisGetFails
        · rfl
        · exact absurd hq hgf
      by_cases hrv : tierValid env.now redis0 (redisKey k) = true
      · right; left
        have hx := hrv
        unfold tierValid at hx
        cases hr : tierGet redis0 (redisKey k) with
        | none => rw [hr] at hx; cases hx
        | some val =>
          rw [hr] at hx
          have hv : entryValid env.now val = true := by simpa using hx
          rw [coreRedis_hit hg hr hv] at h
          cases h
          exact ⟨val, rfl, rfl, hv⟩
      · have hrv' : tierValid env.now redis0 (redisKey k) = false := by
          cases hq : tierValid env.now redis0 (redisKey k)
          · rfl
          · exact absurd hq hrv
        rw [coreRedis_miss hg hrv'] at h
        right; right
        cases hw : env.signer k with
        | none => rw [coreSign_none hw] at h; cases h
        | some w =>
          by_cases hsf : env.redisSetFails = true
          · rw [coreSign_setFail hw hsf] at h; cases h
          · have hs : env.redisSetFails = false := by
              cases hq : env.redisSetFails
              · rfl
              · exact absurd hq hsf
            rw [coreSign_ok hw hs] at h
            cases h
            rfl

/-- A fulfilled single-key resolution always leaves a memory-cache entry for
the key carrying exactly the URL it returned. -/
theorem resolve_success_mem {env : Env} {s : S} {k u1 : String} {s1 : S}
    (h : getSignedDownloadUrl env s k = (Outcome.ok u1, s1)) :
    ∃ e, tierGet s1.mem k = some e ∧ e.url = u1 := by
  have hres : (signedDownloadCore env s.mem s.redis k).result = Outcome.ok u1 :=
    congrArg Prod.fst h
  have hst : s1 = applyCore s (signedDownloadCore env s.mem s.redis k) :=
    (congrArg Prod.snd h).symm
  by_cases hmv : tierValid env.now s.mem k = true
  · have hx := hmv
    unfold tierValid at hx
    cases hm : tierGet s.mem k with
    | none => rw [hm] at hx; cases hx
    | some c =>
      rw [hm] at hx
      have hv : entryValid env.now c = true := by simpa using hx
      rw [core_memHit hm hv] at hres hst
      cases hres
      rw [hst]
      exact ⟨c, hm, rfl⟩
  · have hmv' : tierValid env.now s.mem k = false := by
      cases hq : tierValid env.now s.mem k
      · rfl
      · exact absurd hq hmv
    have hcore := @core_memMiss env s.mem s.redis k hmv'
    rw [hcore] at hres hst
    by_cases hgf : env.redisGetFails = true
    · rw [coreRedis_fail hgf] at hres; cases hres
    · have hg : env.redisGetFails = false := by
        cases hq : env.redisGetFails
        · rfl
        · exact absurd hq hgf
      by_cases hrv : tierValid env.now s.redis (redisKey k) = true
      · have hx := hrv
        unfold tierValid at hx
        cases hr : tierGet s.redis (redisKey k) with
        | none => rw [hr] at hx; cases hx
        | some val =>
          rw [hr] at hx
          have hv : entryValid env.now val = true := by simpa using hx
          rw [coreRedis_hit hg hr hv] at hres hst
          cases hres
          rw [hst]
          exact ⟨val, tierGet_set_self _ _ _, rfl⟩
      · have hrv' : tierValid env.now s.redis (redisKey k) = false := by
          cases hq : tierValid env.now s.redis (redisKey k)
          · rfl
          · exact absurd hq hrv
        rw [coreRedis_miss hg hrv'] at hres hst
        cases hw : env.signer k with
        | none => rw [coreSign_none hw] at hres; cases hres
        | some w =>
          by_cases hsf : env.redisSetFails = true
          · rw [coreSign_setFail hw hsf] at hres; cases hres
          · have hs : env.redisSetFails = false := by
              cases hq : env.redisSetFails
              · rfl
              · exact absurd hq hsf
            rw [coreSign_ok hw hs] at hres hst
            cases hres
            rw [hst]
            exact ⟨_, tierGet_set_self _ _ _, rfl⟩

/-- A single-key resolution invokes the signer at most once. -/
theorem core_signerKeys_le (env : Env) (mem0 redis0 : Tier) (k : String) :
    (signerKeys (signedDownloadCore env mem0 redis0 k).ops).length ≤ 1 := by
  unfold signedDownloadCore signedDownloadCoreRedis signedDownloadCoreSign
  repeat' split
  all_goals simp [signerKeys]

example : (getSignedDownloadUrl demoEnv demoS "k").1 =
    Outcome.ok "https://signed.example/k" := by decide
example : (getSignedDownloadUrl envGetFail demoS "k").1 = Outcome.err := by decide
example : (getSignedDownloadUrl envSetFail demoS "k").1 = Outcome.err := by decide
example : signerKeys
    (getAuthenticatedUrls demoEnv demoS ["r2://bucketA/x", "r2://bucketB/x"]).2.ops =
    ["x", "x"] := by decide
example :
    (signerKeys (getAuthenticatedUrls envMgetErr demoS ["r2://b/k", "r2://b/k"]).2.ops).length
      = 2 := by decide
example :
    (signerKeys (sequentialResolveSpec envMgetErr demoS ["r2://b/k", "r2://b/k"]).2.ops).length
      = 1 := by decide
example : signerKeys
    (getAuthenticatedUrls demoEnv warmS
      ["r2://bkt/a", "r2://bkt/b", "r2://bkt/c", "zzz", "r2://bkt/d"]).2.ops =
    ["c", "d"] := by decide
example : (getAuthenticatedUrls envHang demoS
    ["r2://bkt/a", "r2://bkt/b", "r2://bkt/c", "r2://bkt/d", "r2://bkt/e"]).1 =
    Outcome.ok ["https://signed.example/a", "https://signed.example/b",
      "https://signed.example/c", "https://signed.example/d",
      "https://signed.example/e"] := by decide
example : getSignedDownloadUrl demoEnv demoS "k" =
    (Outcome.ok "https://signed.example/k",
      ⟨[("k", ⟨"https://signed.example/k", 4000000⟩)],
       [("signed_url:k", ⟨"https://signed.example/k", 4000000⟩)],
       [Op.memGet "k", Op.redisGet "k", Op.signerCall "k", Op.memPut "k",
        Op.redisSet "k"]⟩) := by decide

example : parseR2Url "r2://bucket/path/to/file.jpg" = some "path/to/file.jpg" := by decide

/- ## Claim theorems -/

/-- C9: the attachment-URL variant (`getSignedDownloadUrlForAttachment`)
calls the signer directly and leaves both cache tiers unchanged and unread:
its trace adds no cache-tier operation, and repeating the call still leaves
both tiers exactly as they started. -/
theorem c9_attachment_frame (env : Env) (s : S) (k fn : String) :
    (getSignedDownloadUrlForAttachment env s k fn).2.mem = s.mem
  ∧ (getSignedDownloadUrlForAttachment env s k fn).2.redis = s.redis
  ∧ (getSignedDownloadUrlForAttachment env s k fn).2.ops.filter isCacheOp =
      s.ops.filter isCacheOp
  ∧ (getSignedDownloadUrlForAttachment env
      (getSignedDownloadUrlForAttachment env s k fn).2 k fn).2.mem = s.mem
  ∧ (getSignedDownloadUrlForAttachment env
      (getSignedDownloadUrlForAttachment env s k fn).2 k fn).2.redis = s.redis := by
  unfold getSignedDownloadUrlForAttachment
  cases env.signerAttach k fn <;> simp [List.filter_append, isCacheOp]

/-- C8: a string that matches neither the canonical `r2://` scheme nor the
legacy URL shape parses to no key, and `getAuthenticatedUrl` returns exactly
that string with the state untouched (zero signer calls and zero cache-tier
operations); for a reference with a truthy parsed key, a fulfilled resolution
returns a non-empty URL whenever every cached URL and every signer-produced
URL is non-empty. -/
theorem c8_opaque_reference (env : Env) (s : S) (url : String) :
    (parseR2Url url = none → getAuthenticatedUrl env s url = (Outcome.ok url, s))
  ∧ (∀ k u, truthyKey (parseR2Url url) = some k →
      (∀ p ∈ s.mem, p.2.url ≠ "") →
      (∀ p ∈ s.redis, p.2.url ≠ "") →
      (∀ k2 w, env.signer k2 = some w → w ≠ "") →
      (getAuthenticatedUrl env s url).1 = Outcome.ok u → u ≠ "") := by
  constructor
  · intro h
    unfold getAuthenticatedUrl
    rw [h]
    rfl
  · intro k u ht hmem hredis hsig hok
    rw [getAuthenticatedUrl_fst] at hok
    unfold resolveAgainst at hok
    rw [ht] at hok
    rcases core_ok_url_source hok with ⟨e, he, heu, _⟩ | ⟨e, he, heu, _⟩ | hw
    · exact heu ▸ hmem _ (tierGet_mem he)
    · exact heu ▸ hredis _ (tierGet_mem he)
    · exact hsig k u hw

/-- C1 counterexample: with the memory tier cold and a perfectly healthy
signer, a rejection of the distributed-tier `redis.get` makes
`getSignedDownloadUrl` itself reject: the distributed-tier error is
propagated to the caller instead of being treated as a miss. -/
theorem c1_counterexample :
    (envGetFail.signer "k").isSome = true
  ∧ envGetFail.redisGetFails = true
  ∧ (getSignedDownloadUrl envGetFail demoS "k").1 = Outcome.err := by decide

/-- C1 (amended): in the single-key resolve path a distributed-tier failure
propagates to the caller — a rejected `redis.get` (with no valid memory
entry) and a rejected awaited `redis.set` (after a successful signing) both
reject the call — while in the batch path a bulk-read timeout degrades to a
fulfilled full result and a failure of the fire-and-forget pipeline write
never changes the batch result. -/
theorem c1_distributed_errors (env : Env) (s : S) (k w : String) (urls : List String)
    (slots : List Slot) :
    (env.redisGetFails = true → tierValid env.now s.mem k = false →
      (getSignedDownloadUrl env s k).1 = Outcome.err)
  ∧ (env.redisGetFails = false → env.redisSetFails = true →
      tierValid env.now s.mem k = false →
      tierValid env.now s.redis (redisKey k) = false →
      env.signer k = some w →
      (getSignedDownloadUrl env s k).1 = Outcome.err)
  ∧ (env.mgetMode = MgetMode.hang → (∀ k2, (env.signer k2).isSome = true) →
      ∃ out, (getAuthenticatedUrls env s urls).1 = Outcome.ok out)
  ∧ ((batchSign { env with pipelineFails := true } s urls slots).1 =
      (batchSign { env with pipelineFails := false } s urls slots).1) := by
  refine ⟨?_, ?_, ?_, ?_⟩
  · intro hgf hmv
    show (signedDownloadCore env s.mem s.redis k).result = Outcome.err
    rw [core_memMiss hmv, coreRedis_fail hgf]
  · intro hg hsf hmv hrv hw
    show (signedDownloadCore env s.mem s.redis k).result = Outcome.err
    rw [core_memMiss hmv, coreRedis_miss hg hrv, coreSign_setFail hw hsf]
  · intro hh hsig
    exact ⟨_, batch_result_hang env s urls hh hsig⟩
  · cases env
    unfold batchSign
    dsimp only
    split
    · split
      · rfl
      · rfl
    · rfl

/-- C1 witness for the amended theorem: a concrete rejected awaited
`redis.set` after a successful signing rejects the single-key call. -/
theorem c1_distributed_errors_witness :
    envSetFail.redisGetFails = false ∧ envSetFail.redisSetFails = true ∧
    tierValid envSetFail.now demoS.mem "k" = false ∧
    (getSignedDownloadUrl envSetFail demoS "k").1 = Outcome.err :=
  ⟨rfl, rfl, rfl,
    (c1_distributed_errors envSetFail demoS "k" "https://signed.example/k" [] []).2.1
      rfl rfl rfl rfl rfl⟩

/-- C4 counterexample: on a duplicated cold reference with the bulk read
rejecting, the source fallback (`Promise.all` over per-key resolutions, all
started against the pre-fallback caches) signs the shared key twice, whereas
resolving the keys sequentially one after another — as the claim describes —
signs it once: the fallback is not sequential. -/
theorem c4_counterexample :
    (signerKeys
      (getAuthenticatedUrls envMgetErr demoS ["r2://b/k", "r2://b/k"]).2.ops).length = 2
  ∧ (signerKeys
      (sequentialResolveSpec envMgetErr demoS ["r2://b/k", "r2://b/k"]).2.ops).length = 1
  ∧ (2 : Nat) ≠ 1 := by decide

/-- C4 (amended): when the bulk read rejects, the batch equals the fallback
that resolves every requested key through the single-key path with all
resolutions started concurrently against the pre-fallback cache state; in
that fallback one rejected signing rejects the whole batch call (no per-key
partial success), and if every per-key resolution fulfils, the batch fulfils
with exactly the per-key values. -/
theorem c4_fallback (env : Env) (s : S) (urls : List String) :
    (env.mgetMode = MgetMode.err → urls ≠ [] →
      (urls.map (batchStep1 env s.mem)).filterMap slotMissingKey ≠ [] →
      getAuthenticatedUrls env s urls =
        batchFallback env
          ⟨s.mem, s.redis,
            s.ops ++ urls.filterMap (fun u => (truthyKey (parseR2Url u)).map Op.memGet) ++
              [Op.redisMget ((urls.map (batchStep1 env s.mem)).filterMap slotMissingKey)]⟩
          urls)
  ∧ (∀ u ∈ urls, (resolveAgainst env s.mem s.redis u).result = Outcome.err →
      (batchFallback env s urls).1 = Outcome.err)
  ∧ ((∀ u ∈ urls, ∃ v, (resolveAgainst env s.mem s.redis u).result = Outcome.ok v) →
      (batchFallback env s urls).1 =
        Outcome.ok (urls.map (singleValue env s.mem s.redis))) := by
  refine ⟨?_, ?_, ?_⟩
  · intro hme hnil hmiss
    unfold getAuthenticatedUrls
    rw [if_neg hnil]
    dsimp only
    rw [if_neg hmiss, hme]
  · intro u hu herr
    unfold batchFallback
    have hm1 : resolveAgainst env s.mem s.redis u ∈
        urls.map (resolveAgainst env s.mem s.redis) := List.mem_map_of_mem _ hu
    have hm2 : Outcome.err ∈
        (urls.map (resolveAgainst env s.mem s.redis)).map CoreOut.result := by
      rw [← herr]
      exact List.mem_map_of_mem _ hm1
    dsimp only
    rw [promiseAll_err hm2]
  · intro hall
    unfold batchFallback
    dsimp only
    rw [promiseAll_singleValues env s.mem s.redis urls hall]

/-- C4 witness: a concrete one-element batch with a rejecting bulk read
equals the concurrent per-key fallback on the same input. -/
theorem c4_fallback_witness :
    getAuthenticatedUrls envMgetErr demoS ["r2://b/k"] =
      batchFallback envMgetErr ⟨[], [], [Op.memGet "k", Op.redisMget ["k"]]⟩
        ["r2://b/k"] :=
  (c4_fallback envMgetErr demoS ["r2://b/k"]).1 rfl (by decide) (by decide)

/-- C5: the bulk read is raced against the fixed 2000 ms deadline; when the
deadline elapses first, the batch fulfils with a full-length result, its
values are independent of whatever the distributed tier holds (the late
reply is discarded), every memory-missed key is resolved by a direct signer
call, and the keys signed are exactly the memory misses. -/
theorem c5_mget_deadline (env : Env) (s : S) (urls : List String) (r1 r2 : Tier)
    (hh : env.mgetMode = MgetMode.hang)
    (hsig : ∀ k, (env.signer k).isSome = true) :
    REDIS_MGET_TIMEOUT_MS = 2000
  ∧ (getAuthenticatedUrls env s urls).1 =
      Outcome.ok (urls.map (fun u => slotFill env (batchStep1 env s.mem u)))
  ∧ (∃ out, (getAuthenticatedUrls env s urls).1 = Outcome.ok out ∧
      out.length = urls.length)
  ∧ (getAuthenticatedUrls env ⟨s.mem, r1, s.ops⟩ urls).1 =
      (getAuthenticatedUrls env ⟨s.mem, r2, s.ops⟩ urls).1
  ∧ signerKeys (getAuthenticatedUrls env s urls).2.ops =
      signerKeys s.ops ++ (urls.map (batchStep1 env s.mem)).filterMap slotMissingKey := by
  refine ⟨rfl, batch_result_hang env s urls hh hsig,
    ⟨_, batch_result_hang env s urls hh hsig, by simp⟩, ?_,
    batch_ops_hang env s urls hh hsig⟩
  rw [batch_result_hang env ⟨s.mem, r1, s.ops⟩ urls hh hsig,
      batch_result_hang env ⟨s.mem, r2, s.ops⟩ urls hh hsig]

/-- C8 witness: a concrete unrecognized string is returned unchanged with
the state (including the operation trace) untouched. -/
theorem c8_opaque_reference_witness :
    parseR2Url "https://cdn.example.com/logo.png" = none ∧
    getAuthenticatedUrl demoEnv demoS "https://cdn.example.com/logo.png" =
      (Outcome.ok "https://cdn.example.com/logo.png", demoS) :=
  ⟨by decide,
    (c8_opaque_reference demoEnv demoS "https://cdn.example.com/logo.png").1 (by decide)⟩

/-- C2: an entry whose `expiresAt` is not strictly later than now plus the
safety buffer is never served: a fulfilled single-key resolution that made no
signer call took its URL from a tier entry satisfying the buffer guard, and
whenever neither tier holds a valid entry, both the single-key path and the
in-time batch path issue a fresh signer call for that key. -/
theorem c2_expiry_enforcement (env : Env) (s : S) (k : String) :
    (∀ u, (getSignedDownloadUrl env s k).1 = Outcome.ok u →
      Op.signerCall k ∉ (signedDownloadCore env s.mem s.redis k).ops →
      (∃ e, tierGet s.mem k = some e ∧ e.url = u ∧ entryValid env.now e = true) ∨
      (∃ e, tierGet s.redis (redisKey k) = some e ∧ e.url = u ∧
        entryValid env.now e = true))
  ∧ (tierValid env.now s.mem k = false →
      tierValid env.now s.redis (redisKey k) = false →
      env.redisGetFails = false →
      Op.signerCall k ∈ (getSignedDownloadUrl env s k).2.ops)
  ∧ (∀ urls u, u ∈ urls → truthyKey (parseR2Url u) = some k →
      env.mgetMode = MgetMode.ok →
      (∀ k2, (env.signer k2).isSome = true) →
      tierValid env.now s.mem k = false →
      tierValid env.now s.redis (redisKey k) = false →
      Op.signerCall k ∈ (getAuthenticatedUrls env s urls).2.ops) := by
  refine ⟨?_, ?_, ?_⟩
  · intro u hok hnot
    have hres : (signedDownloadCore env s.mem s.redis k).result = Outcome.ok u := hok
    by_cases hmv : tierValid env.now s.mem k = true
    · left
      have hx := hmv
      unfold tierValid at hx
      cases hm : tierGet s.mem k with
      | none => rw [hm] at hx; cases hx
      | some c =>
        rw [hm] at hx
        have hcv : entryValid env.now c = true := by simpa using hx
        rw [core_memHit hm hcv] at hres
        cases hres
        exact ⟨c, rfl, rfl, hcv⟩
    · have hmv' : tierValid env.now s.mem k = false := by
        cases hq : tierValid env.now s.mem k
        · rfl
        · exact absurd hq hmv
      rw [@core_memMiss env s.mem s.redis k hmv'] at hres hnot
      by_cases hgf : env.redisGetFails = true
      · rw [coreRedis_fail hgf] at hres; cases hres
      · have hg : env.redisGetFails = false := by
          cases hq : env.redisGetFails
          · rfl
          · exact absurd hq hgf
        by_cases hrv : tierValid env.now s.redis (redisKey k) = true
        · right
          have hx := hrv
          unfold tierValid at hx
          cases hr : tierGet s.redis (redisKey k) with
          | none => rw [hr] at hx; cases hx
          | some val =>
            rw [hr] at hx
            have hcv : entryValid env.now val = true := by simpa using hx
            rw [coreRedis_hit hg hr hcv] at hres
            cases hres
            exact ⟨val, rfl, rfl, hcv⟩
        · have hrv' : tierValid env.now s.redis (redisKey k) = false := by
            cases hq : tierValid env.now s.redis (redisKey k)
            · rfl
            · exact absurd hq hrv
          rw [coreRedis_miss hg hrv'] at hnot
          exact absurd (coreSign_hasCall env k) hnot
  · intro hmv hrv hg
    show Op.signerCall k ∈ (applyCore s (signedDownloadCore env s.mem s.redis k)).ops
    unfold applyCore
    rw [core_memMiss hmv, coreRedis_miss hg hrv]
    exact List.mem_append_right _ (coreSign_hasCall env k)
  · intro urls u hu ht hm hsig hmv hrv
    have h1 : batchStep1 env s.mem u = Slot.missing k := batchStep1_eq_missing ht hmv
    have h2 : batchStep2Slot env s.redis (batchStep1 env s.mem u) = Slot.missing k := by
      rw [h1]
      exact batchStep2_eq_missing hrv
    have hkmem : k ∈ ((urls.map (batchStep1 env s.mem)).map
        (batchStep2Slot env s.redis)).filterMap slotMissingKey := by
      apply List.mem_filterMap.mpr
      refine ⟨Slot.missing k, ?_, rfl⟩
      have hin : batchStep2Slot env s.redis (batchStep1 env s.mem u) ∈
          (urls.map (batchStep1 env s.mem)).map (batchStep2Slot env s.redis) :=
        List.mem_map_of_mem _ (List.mem_map_of_mem _ hu)
      rw [h2] at hin
      exact hin
    have hk2 : k ∈ signerKeys (getAuthenticatedUrls env s urls).2.ops := by
      rw [batch_ops_ok env s urls hm hsig]
      exact List.mem_append_right _ hkmem
    exact mem_signerKeys.mp hk2

/-- C2 witness: on cold caches the single-key path does call the signer. -/
theorem c2_expiry_enforcement_witness :
    tierValid demoEnv.now demoS.mem "k" = false ∧
    tierValid demoEnv.now demoS.redis (redisKey "k") = false ∧
    Op.signerCall "k" ∈ (getSignedDownloadUrl demoEnv demoS "k").2.ops :=
  ⟨by decide, by decide,
    (c2_expiry_enforcement demoEnv demoS "k").2.1 rfl rfl rfl⟩

/-- C3: with the distributed tier answering in time and no transport or
signer failure injected, the batch result is exactly the list of per-key
single-resolution values (same length, positionally aligned), each
single-key call fulfils with that value on the identically-primed state, and
an opaque input is its own value at its own index. -/
theorem c3_batch_single_equivalence (env : Env) (s : S) (urls : List String)
    (hm : env.mgetMode = MgetMode.ok)
    (hg : env.redisGetFails = false) (hs : env.redisSetFails = false)
    (hsig : ∀ k, (env.signer k).isSome = true) :
    (getAuthenticatedUrls env s urls).1 =
      Outcome.ok (urls.map (singleValue env s.mem s.redis))
  ∧ (∀ u, (getAuthenticatedUrl env s u).1 =
      Outcome.ok (singleValue env s.mem s.redis u))
  ∧ (∀ u, truthyKey (parseR2Url u) = none →
      singleValue env s.mem s.redis u = u) := by
  refine ⟨batch_result_ok env s urls hm hg hs hsig, ?_, ?_⟩
  · intro u
    rw [getAuthenticatedUrl_fst, resolveAgainst_ok env s.mem s.redis u hg hs hsig]
  · intro u ht
    unfold singleValue resolveAgainst
    rw [ht]

/-- C3 witness: a concrete batch over a warm/cold/opaque mix equals the map
of its per-key single resolutions. -/
theorem c3_batch_single_equivalence_witness :
    (getAuthenticatedUrls demoEnv warmS ["r2://bkt/a", "zzz", "r2://bkt/d"]).1 =
      Outcome.ok (["r2://bkt/a", "zzz", "r2://bkt/d"].map
        (singleValue demoEnv warmS.mem warmS.redis)) :=
  (c3_batch_single_equivalence demoEnv warmS ["r2://bkt/a", "zzz", "r2://bkt/d"]
    rfl rfl rfl (fun _ => rfl)).1

/-- C6 counterexample: two distinct resolvable references that differ only in
the container collapse to the same cache key, and a cold batch over them
issues two signer calls for that single key, not one. -/
theorem c6_counterexample :
    ("r2://bucketA/x" : String) ≠ "r2://bucketB/x"
  ∧ truthyKey (parseR2Url "r2://bucketA/x") = some "x"
  ∧ truthyKey (parseR2Url "r2://bucketB/x") = some "x"
  ∧ tierValid demoEnv.now demoS.mem "x" = false
  ∧ tierValid demoEnv.now demoS.redis (redisKey "x") = false
  ∧ signerKeys (getAuthenticatedUrls demoEnv demoS
      ["r2://bucketA/x", "r2://bucketB/x"]).2.ops = ["x", "x"] := by decide

/-- C6 (amended): in the in-time batch path the signer calls are exactly, in
order, the derived keys of the references valid in neither tier (so none for
a reference cached in either tier); when the derived keys of the references
are pairwise distinct this is exactly one signer call per key valid in
neither tier. -/
theorem c6_partial_miss (env : Env) (s : S) (urls : List String)
    (hm : env.mgetMode = MgetMode.ok)
    (hsig : ∀ k, (env.signer k).isSome = true) :
    signerKeys (getAuthenticatedUrls env s urls).2.ops =
      signerKeys s.ops ++ urls.filterMap (needSignKey env s.mem s.redis)
  ∧ (∀ u k, truthyKey (parseR2Url u) = some k →
      (tierValid env.now s.mem k = true ∨
        tierValid env.now s.redis (redisKey k) = true) →
      needSignKey env s.mem s.redis u = none)
  ∧ ((urls.filterMap (fun u => truthyKey (parseR2Url u))).Nodup →
      ∀ u k, u ∈ urls → needSignKey env s.mem s.redis u = some k →
        (urls.filterMap (needSignKey env s.mem s.redis)).count k = 1) := by
  refine ⟨?_, ?_, ?_⟩
  · rw [batch_ops_ok env s urls hm hsig]
    refine congrArg (fun l => signerKeys s.ops ++ l) ?_
    rw [List.filterMap_map, List.filterMap_map]
    apply filterMapCongrOn
    intro a _
    exact slotMissingKey_eval env s.mem s.redis a
  · intro u k ht hvalid
    unfold needSignKey
    simp only [ht]
    rcases hvalid with h | h
    · rw [if_pos h]
    · by_cases h1 : tierValid env.now s.mem k = true
      · rw [if_pos h1]
      · rw [if_neg h1, if_pos h]
  · intro hnd u k hu hk
    have hmem : k ∈ urls.filterMap (needSignKey env s.mem s.redis) :=
      List.mem_filterMap.mpr ⟨u, hu, hk⟩
    have hle : (urls.filterMap (needSignKey env s.mem s.redis)).count k ≤
        (urls.filterMap (fun u2 => truthyKey (parseR2Url u2))).count k := by
      rw [count_filterMap, count_filterMap]
      apply List.countP_mono_left
      intro a _ hpa
      exact decide_eq_true (needSignKey_truthy (of_decide_eq_true hpa))
    have hone : (urls.filterMap (fun u2 => truthyKey (parseR2Url u2))).count k ≤ 1 :=
      List.nodup_iff_count_le_one.mp hnd k
    have hpos : 0 < (urls.filterMap (needSignKey env s.mem s.redis)).count k :=
      List.count_pos_iff.mpr hmem
    omega

/-- C6 witness: in a concrete five-reference batch with one memory-cached
key, one Redis-cached key and one opaque input, the signer calls are exactly
the two keys cached nowhere. -/
theorem c6_partial_miss_witness :
    signerKeys (getAuthenticatedUrls demoEnv warmS
      ["r2://bkt/a", "r2://bkt/b", "r2://bkt/c", "zzz", "r2://bkt/d"]).2.ops =
      signerKeys warmS.ops ++
        ["r2://bkt/a", "r2://bkt/b", "r2://bkt/c", "zzz", "r2://bkt/d"].filterMap
          (needSignKey demoEnv warmS.mem warmS.redis) :=
  (c6_partial_miss demoEnv warmS
    ["r2://bkt/a", "r2://bkt/b", "r2://bkt/c", "zzz", "r2://bkt/d"]
    rfl (fun _ => rfl)).1

/-- C7: after a fulfilled resolve of a key, a second resolve inside the
validity window of the cached entry fulfils with the identical URL, adds no
signer call, and across the two calls the signer was invoked at most once. -/
theorem c7_resolve_idempotent (env : Env) (s : S) (k u1 : String) (s1 : S) (t2 : Int)
    (h1 : getSignedDownloadUrl env s k = (Outcome.ok u1, s1))
    (hv : ∀ e, tierGet s1.mem k = some e → e.expiresAt > t2 + SAFETY_BUFFER_MS) :
    (getSignedDownloadUrl { env with now := t2 } s1 k).1 = Outcome.ok u1
  ∧ signerKeys (getSignedDownloadUrl { env with now := t2 } s1 k).2.ops =
      signerKeys s1.ops
  ∧ (signerKeys s1.ops).length ≤ (signerKeys s.ops).length + 1 := by
  obtain ⟨e, he, heu⟩ := resolve_success_mem h1
  have hval : entryValid t2 e = true := decide_eq_true (hv e he)
  have hc := @core_memHit { env with now := t2 } s1.mem s1.redis k e he hval
  refine ⟨?_, ?_, ?_⟩
  · show (signedDownloadCore { env with now := t2 } s1.mem s1.redis k).result =
      Outcome.ok u1
    rw [hc, heu]
  · show signerKeys
      (applyCore s1 (signedDownloadCore { env with now := t2 } s1.mem s1.redis k)).ops =
      signerKeys s1.ops
    unfold applyCore
    rw [hc]
    dsimp only
    rw [signerKeys_append]
    simp [signerKeys]
  · have hst : s1 = applyCore s (signedDownloadCore env s.mem s.redis k) :=
      (congrArg Prod.snd h1).symm
    rw [hst]
    show (signerKeys (s.ops ++ (signedDownloadCore env s.mem s.redis k).ops)).length ≤ _
    rw [signerKeys_append, List.length_append]
    have := core_signerKeys_le env s.mem s.redis k
    omega

/-- C7 witness: the second resolve of a concrete freshly-cached key is a pure
memory hit returning the identical URL. -/
theorem c7_resolve_idempotent_witness :
    (getSignedDownloadUrl { demoEnv with now := 1000000 } c7S1 "k").1 =
      Outcome.ok "https://signed.example/k" :=
  (c7_resolve_idempotent demoEnv demoS "k" "https://signed.example/k" c7S1 1000000
    (by decide)
    (by
      intro e he
      have h2 : tierGet c7S1.mem "k" =
          some ⟨"https://signed.example/k", 4000000⟩ := by decide
      rw [h2] at he
      cases he
      decide)).1

/-- C10: the signed URL is valid for 1000 * SIGNED_URL_EXPIRY = 3600000 ms
while the recorded cache expiry is SIGNED_URL_CACHE_DURATION = 3000000 ms, an
under-approximation by exactly 600000 ms (10 minutes); every entry created by
a signer call (single-key path and batch signing step) records
`expiresAt = now + SIGNED_URL_CACHE_DURATION`; and any entry passing the
safety-buffer guard at serve time t1 still has more than 900000 ms (15
minutes) of real validity. -/
theorem c10_validity_margin (env : Env) (s : S) (k u : String) (s1 : S)
    (fileUrls : List String) (slots : List Slot) (t0 t1 : Int) :
    1000 * SIGNED_URL_EXPIRY - SIGNED_URL_CACHE_DURATION = 600000
  ∧ (getSignedDownloadUrl env s k = (Outcome.ok u, s1) →
      Op.signerCall k ∈ (signedDownloadCore env s.mem s.redis k).ops →
      tierGet s1.mem k = some ⟨u, env.now + SIGNED_URL_CACHE_DURATION⟩)
  ∧ ((slots.filterMap slotMissingKey).all (fun k2 => (env.signer k2).isSome) = true →
      ∃ ws, (batchSign env s fileUrls slots).2.mem = applyWrites s.mem ws ∧
        ∀ kv ∈ ws, kv.2.expiresAt = env.now + SIGNED_URL_CACHE_DURATION)
  ∧ (t0 + SIGNED_URL_CACHE_DURATION > t1 + SAFETY_BUFFER_MS →
      t0 + 1000 * SIGNED_URL_EXPIRY - t1 > 900000) := by
  refine ⟨by decide, ?_, ?_, ?_⟩
  · intro h hcall
    have hres : (signedDownloadCore env s.mem s.redis k).result = Outcome.ok u :=
      congrArg Prod.fst h
    have hst : s1 = applyCore s (signedDownloadCore env s.mem s.redis k) :=
      (congrArg Prod.snd h).symm
    by_cases hmv : tierValid env.now s.mem k = true
    · exfalso
      have hx := hmv
      unfold tierValid at hx
      cases hm : tierGet s.mem k with
      | none => rw [hm] at hx; cases hx
      | some c =>
        rw [hm] at hx
        have hcv : entryValid env.now c = true := by simpa using hx
        rw [core_memHit hm hcv] at hcall
        simp at hcall
    · have hmv' : tierValid env.now s.mem k = false := by
        cases hq : tierValid env.now s.mem k
        · rfl
        · exact absurd hq hmv
      rw [@core_memMiss env s.mem s.redis k hmv'] at hres hst hcall
      by_cases hgf : env.redisGetFails = true
      · rw [coreRedis_fail hgf] at hres; cases hres
      · have hg : env.redisGetFails = false := by
          cases hq : env.redisGetFails
          · rfl
          · exact absurd hq hgf
        by_cases hrv : tierValid env.now s.redis (redisKey k) = true
        · exfalso
          have hx := hrv
          unfold tierValid at hx
          cases hr : tierGet s.redis (redisKey k) with
          | none => rw [hr] at hx; cases hx
          | some val =>
            rw [hr] at hx
            have hcv : entryValid env.now val = true := by simpa using hx
            rw [coreRedis_hit hg hr hcv] at hcall
            simp at hcall
        · have hrv' : tierValid env.now s.redis (redisKey k) = false := by
            cases hq : tierValid env.now s.redis (redisKey k)
            · rfl
            · exact absurd hq hrv
          rw [coreRedis_miss hg hrv'] at hres hst
          cases hw : env.signer k with
          | none => rw [coreSign_none hw] at hres; cases hres
          | some w =>
            by_cases hsf : env.redisSetFails = true
            · rw [coreSign_setFail hw hsf] at hres; cases hres
            · have hsets : env.redisSetFails = false := by
                cases hq : env.redisSetFails
                · rfl
                · exact absurd hq hsf
              rw [coreSign_ok hw hsets] at hres hst
              cases hres
              rw [hst]
              exact tierGet_set_self _ _ _
  · intro hall
    unfold batchSign
    rw [if_pos hall]
    dsimp only
    split
    · refine ⟨_, rfl, ?_⟩
      intro kv hkv
      obtain ⟨k2, _, heq⟩ := List.mem_filterMap.mp hkv
      cases hw : env.signer k2 with
      | none => rw [hw] at heq; cases heq
      | some u2 =>
        rw [hw] at heq
        cases heq
        rfl
    · refine ⟨_, rfl, ?_⟩
      intro kv hkv
      obtain ⟨k2, _, heq⟩ := List.mem_filterMap.mp hkv
      cases hw : env.signer k2 with
      | none => rw [hw] at heq; cases heq
      | some u2 =>
        rw [hw] at heq
        cases heq
        rfl
  · intro h
    unfold SIGNED_URL_CACHE_DURATION SAFETY_BUFFER_MS at h
    unfold SIGNED_URL_EXPIRY
    omega

/-- C10 witness: the concrete cold resolve records expiry 4000000 ms at
signing time 1000000 ms, and a concrete entry passing the guard keeps more
than 15 minutes of real validity. -/
theorem c10_validity_margin_witness :
    tierGet c7S1.mem "k" =
      some ⟨"https://signed.example/k", demoEnv.now + SIGNED_URL_CACHE_DURATION⟩ ∧
    ((1000000 : Int) + 1000 * SIGNED_URL_EXPIRY - 3600000 > 900000) :=
  ⟨(c10_validity_margin demoEnv demoS "k" "https://signed.example/k" c7S1 [] [] 0 0).2.1
      (by decide) (by decide),
   (c10_validity_margin demoEnv demoS "k" "https://signed.example/k" c7S1 [] []
      1000000 3600000).2.2.2 (by decide)⟩

/-- C5 witness: a concrete five-key batch against a hanging distributed tier
fulfils with five URLs obtained by direct signing. -/
theorem c5_mget_deadline_witness :
    (getAuthenticatedUrls envHang demoS
      ["r2://bkt/a", "r2://bkt/b", "r2://bkt/c", "r2://bkt/d", "r2://bkt/e"]).1 =
      Outcome.ok (["r2://bkt/a", "r2://bkt/b", "r2://bkt/c", "r2://bkt/d",
        "r2://bkt/e"].map (fun u => slotFill envHang (batchStep1 envHang demoS.mem u))) :=
  (c5_mget_deadline envHang demoS
    ["r2://bkt/a", "r2://bkt/b", "r2://bkt/c", "r2://bkt/d", "r2://bkt/e"] [] []
    rfl (fun _ => rfl)).2.1
example : parseR2Url "r2://bucket" = some "" := by decide
example : parseR2Url "https://cdn.example.com/logo.png" = none := by decide
example : parseR2Url "https://f000.backblazeb2.com/file/bkt/path/img.jpg" = some "path/img.jpg" := by
  decide
example : parseR2Url "/file/a/file/b" = some "file/b" := by decide
example : parseR2Url "/file//x" = none := by decide
example : truthyKey (parseR2Url "r2://bucket") = none := by decide
